import Mathlib

/-!
Verification of the cameleon GenICam core against its specification.

The development shallowly embeds the Rust source:
* the binary codec of `genapi/src/utils.rs` (`int_from_slice`, `bytes_from_int`,
  `float_from_slice`);
* the cache/value stores of `genapi/src/store.rs` (`DefaultCacheStore`,
  `DefaultValueStore`);
* the node operations of `genapi/src/enumeration.rs` and `genapi/src/integer.rs`;
* the register-memory event handler of
  `cameleon-device/src/u3v/emulator/emulator_impl/memory_event_handler.rs`.

Machine integers are embedded as `Nat`/`Int` with explicit `% 2 ^ w` at the points
where the Rust code wraps.  Rust `HashMap`s are embedded as association lists with
the same lookup/insert observable behaviour.  Fallible Rust functions returning
`Result` become `Except`-valued functions; functions mutating `&mut` state return
the new state explicitly.
-/

namespace Cameleon

/-- Rust enum `Endianness` from genapi `elem_type`: byte order used by the codec. -/
inductive Endianness
  | LE
  | BE
deriving DecidableEq

/-- Rust enum `Sign` from genapi `elem_type`: signedness used by the codec. -/
inductive Sign
  | Signed
  | Unsigned
deriving DecidableEq

/-- Error kinds of `GenApiError` (genapi error taxonomy, spec section 7).  The
diagnostic message strings carried by the Rust enum are elided: no claim depends
on them. -/
inductive GenApiError
  | invalidNode
  | invalidData
  | invalidBuffer
  | notWritable
  | notReadable
  | chunkDataMissing
  | ioError
deriving DecidableEq

/-- Little-endian byte decomposition of a natural number into `w` bytes: the
embedding of Rust `to_le_bytes` on a `w`-byte integer holding the value `n`
(`n < 256 ^ w`). -/
def leBytes : Nat → Nat → List Nat
  | 0, _ => []
  | w + 1, n => n % 256 :: leBytes w (n / 256)

/-- Recomposition of a little-endian byte list into a natural number: the
embedding of Rust `from_le_bytes`. -/
def natFromLe : List Nat → Nat
  | [] => 0
  | b :: bs => b + 256 * natFromLe bs

/-- Reinterpretation of the `w`-byte unsigned value `n` as a two's-complement
signed integer: the embedding of reading a `w`-byte buffer as the signed type
(`i8`/`i16`/`i32`/`i64`) holding the same bit pattern. -/
def toSigned (w n : Nat) : Int :=
  if n < 2 ^ (8 * w - 1) then (n : Int) else (n : Int) - ((2 ^ (8 * w) : Nat) : Int)

/-- Embedding of `utils::int_from_slice` (genapi/src/utils.rs, lines 33-53).
The Rust macro expands to a match on `(slice.len(), endianness, sign)` with one
arm per `(len, e, s)` triple for `len` in 8/4/2/1, falling through to
`InvalidBuffer`; bytes are `Nat < 256`.  For width 8 the `Unsigned` arm is
`u64::from_?e_bytes(..) as i64`, i.e. the same two's-complement
reinterpretation `toSigned 8` as the `Signed` arm; for widths below 8 the
`Unsigned` arms zero-extend (`as i64` of a `u8`/`u16`/`u32` value) and the
`Signed` arms sign-extend (`i64::from` of an `i8`/`i16`/`i32` value). -/
def int_from_slice (slice : List Nat) (endianness : Endianness) (sign : Sign) :
    Except GenApiError Int :=
  if slice.length = 8 then
    match endianness, sign with
    | .LE, .Signed => .ok (toSigned 8 (natFromLe slice))
    | .LE, .Unsigned => .ok (toSigned 8 (natFromLe slice))
    | .BE, .Signed => .ok (toSigned 8 (natFromLe slice.reverse))
    | .BE, .Unsigned => .ok (toSigned 8 (natFromLe slice.reverse))
  else if slice.length = 4 then
    match endianness, sign with
    | .LE, .Signed => .ok (toSigned 4 (natFromLe slice))
    | .LE, .Unsigned => .ok ((natFromLe slice : Nat) : Int)
    | .BE, .Signed => .ok (toSigned 4 (natFromLe slice.reverse))
    | .BE, .Unsigned => .ok ((natFromLe slice.reverse : Nat) : Int)
  else if slice.length = 2 then
    match endianness, sign with
    | .LE, .Signed => .ok (toSigned 2 (natFromLe slice))
    | .LE, .Unsigned => .ok ((natFromLe slice : Nat) : Int)
    | .BE, .Signed => .ok (toSigned 2 (natFromLe slice.reverse))
    | .BE, .Unsigned => .ok ((natFromLe slice.reverse : Nat) : Int)
  else if slice.length = 1 then
    match endianness, sign with
    | .LE, .Signed => .ok (toSigned 1 (natFromLe slice))
    | .LE, .Unsigned => .ok ((natFromLe slice : Nat) : Int)
    | .BE, .Signed => .ok (toSigned 1 (natFromLe slice.reverse))
    | .BE, .Unsigned => .ok ((natFromLe slice.reverse : Nat) : Int)
  else
    .error .invalidBuffer

/-- Embedding of `utils::bytes_from_int` (genapi/src/utils.rs, lines 55-76).
The Rust function writes into a caller-provided buffer of length `bufLen`; the
embedding returns the written bytes.  The Rust casts `value as iN` and
`value as uN` both keep the low `bufLen` bytes of the two's-complement
representation, which is `value % 2 ^ (8 * bufLen)` (Euclidean remainder), so
the `Signed` and `Unsigned` arms write the same bytes. -/
def bytes_from_int (value : Int) (bufLen : Nat) (endianness : Endianness)
    (sign : Sign) : Except GenApiError (List Nat) :=
  if bufLen = 8 ∨ bufLen = 4 ∨ bufLen = 2 ∨ bufLen = 1 then
    match endianness, sign with
    | .LE, .Signed => .ok (leBytes bufLen (value % ((2 ^ (8 * bufLen) : Nat) : Int)).toNat)
    | .LE, .Unsigned => .ok (leBytes bufLen (value % ((2 ^ (8 * bufLen) : Nat) : Int)).toNat)
    | .BE, .Signed => .ok (leBytes bufLen (value % ((2 ^ (8 * bufLen) : Nat) : Int)).toNat).reverse
    | .BE, .Unsigned => .ok (leBytes bufLen (value % ((2 ^ (8 * bufLen) : Nat) : Int)).toNat).reverse
  else
    .error .invalidBuffer

/-- Result of `float_from_slice`.  The IEEE-754 semantics of the decoded float
is outside this embedding (no claim depends on it); the result records which
arm produced it and the raw bit pattern that was read. -/
inductive FloatVal
  | f64Bits (bits : Nat)
  | f32Widened (bits : Nat)
deriving DecidableEq

/-- Embedding of `utils::float_from_slice` (genapi/src/utils.rs, lines 78-88):
8-byte buffers decode as `f64`, 4-byte buffers decode as `f32` widened to
`f64`, and every other length returns `InvalidBuffer`. -/
def float_from_slice (slice : List Nat) (endianness : Endianness) :
    Except GenApiError FloatVal :=
  if slice.length = 8 then
    match endianness with
    | .LE => .ok (.f64Bits (natFromLe slice))
    | .BE => .ok (.f64Bits (natFromLe slice.reverse))
  else if slice.length = 4 then
    match endianness with
    | .LE => .ok (.f32Widened (natFromLe slice))
    | .BE => .ok (.f32Widened (natFromLe slice.reverse))
  else
    .error .invalidBuffer

/-- The precondition of the spec's round-trip property: `v` fits in `w` bytes
under sign `s`. -/
def fitsIn (v : Int) (w : Nat) : Sign → Prop
  | .Signed => -((2 ^ (8 * w - 1) : Nat) : Int) ≤ v ∧ v < ((2 ^ (8 * w - 1) : Nat) : Int)
  | .Unsigned => 0 ≤ v ∧ v < ((2 ^ (8 * w) : Nat) : Int)

/-! ## Stores and nodes (genapi/src/store.rs, enumeration.rs, integer.rs) -/

/-- Rust `NodeId`: dense 32-bit handle interned from the node name; embedded as
`Nat`. -/
abbrev NodeId := Nat

/-- Rust `IntegerId`: newtype index into a `ValueStore`; embedded as `Nat`. -/
abbrev IntegerId := Nat

/-- Rust `ValueData` from genapi/src/store.rs.  The `Float(f64)` arm is omitted:
floating point is outside this embedding and no claim reads or writes it. -/
inductive ValueData
  | integer (i : Int)
  | strVal (s : String)
  | boolean (b : Bool)
deriving DecidableEq

/-- Embedding of `DefaultValueStore` (genapi/src/store.rs): an arena of
`ValueData` indexed by id. -/
structure DefaultValueStore where
  values : List ValueData
deriving DecidableEq

/-- Embedding of `ValueStore::value_opt`: bounds-checked lookup. -/
def DefaultValueStore.value_opt (vs : DefaultValueStore) (id : Nat) :
    Option ValueData :=
  vs.values[id]?

/-- Embedding of `DefaultValueStore::update` (store.rs, lines 472-480): the Rust
`get_mut(id).map(|old| replace(old, value))` replaces in bounds and silently
does nothing out of bounds, exactly like `List.set`. -/
def DefaultValueStore.update (vs : DefaultValueStore) (id : Nat)
    (v : ValueData) : DefaultValueStore :=
  ⟨vs.values.set id v⟩

/-- Embedding of `ValueStore::integer_value` (store.rs, lines 90-96): typed
accessor returning `none` on arm mismatch or missing id. -/
def DefaultValueStore.integer_value (vs : DefaultValueStore) (id : IntegerId) :
    Option Int :=
  match vs.value_opt id with
  | some (.integer i) => some i
  | _ => none

/-- Association-list lookup: the embedding of `HashMap::get` (first binding of
the key wins; insertion keeps at most one binding per key). -/
def assocFind {α β : Type} [DecidableEq α] (k : α) : List (α × β) → Option β
  | [] => none
  | (k', v) :: rest => if k' = k then some v else assocFind k rest

/-- Association-list insert-or-replace: the embedding of `HashMap::insert` /
`entry(..).and_modify(..).or_insert(..)`. -/
def assocSet {α β : Type} [DecidableEq α] (k : α) (v : β) :
    List (α × β) → List (α × β)
  | [] => [(k, v)]
  | (k', v') :: rest =>
    if k' = k then (k, v) :: rest else (k', v') :: assocSet k v rest

/-- Embedding of `DefaultCacheStore` (genapi/src/store.rs, lines 483-549): a
two-level map `NodeId → (address, length) → bytes` plus the invalidator
dependency map `invalidator NodeId → targets`. -/
structure DefaultCacheStore where
  store : List (NodeId × List ((Int × Int) × List Nat))
  invalidators : List (NodeId × List NodeId)
deriving DecidableEq

/-- Embedding of `DefaultCacheStore::cache`: record `data` under
`(nid, address, length)`, replacing any previous entry. -/
def DefaultCacheStore.cache (cs : DefaultCacheStore) (nid : NodeId)
    (address length : Int) (data : List Nat) : DefaultCacheStore :=
  match assocFind nid cs.store with
  | some level1 =>
    { cs with store := assocSet nid (assocSet (address, length) data level1) cs.store }
  | none =>
    { cs with store := assocSet nid [((address, length), data)] cs.store }

/-- Embedding of `DefaultCacheStore::get_cache`. -/
def DefaultCacheStore.get_cache (cs : DefaultCacheStore) (nid : NodeId)
    (address length : Int) : Option (List Nat) :=
  (assocFind nid cs.store).bind (fun level1 => assocFind (address, length) level1)

/-- Embedding of `DefaultCacheStore::invalidate_by` (store.rs, lines 530-538):
clear the cached entries of every node listed in `invalidators[nid]` (the Rust
code replaces each present inner map with an empty one). -/
def DefaultCacheStore.invalidate_by (cs : DefaultCacheStore) (nid : NodeId) :
    DefaultCacheStore :=
  match assocFind nid cs.invalidators with
  | some targets =>
    { cs with
      store := cs.store.map (fun p => if p.1 ∈ targets then (p.1, []) else p) }
  | none => cs

/-- Embedding of `DefaultCacheStore::invalidate_of` (store.rs, lines 540-544). -/
def DefaultCacheStore.invalidate_of (cs : DefaultCacheStore) (nid : NodeId) :
    DefaultCacheStore :=
  { cs with store := cs.store.map (fun p => if p.1 = nid then (p.1, []) else p) }

/-- Embedding of `DefaultCacheStore::clear`. -/
def DefaultCacheStore.clear (cs : DefaultCacheStore) : DefaultCacheStore :=
  { cs with store := [] }

/-- The invalidation targets registered for `nid`: `invalidators[nid]`, read
off the cache store exactly as `invalidate_by` does. -/
def DefaultCacheStore.targetsOf (cs : DefaultCacheStore) (nid : NodeId) :
    List NodeId :=
  (assocFind nid cs.invalidators).getD []

/-- Modelled from the spec: `ValueCtxt` (spec section 2, item 7) bundles the
value store and the cache store for one device call; the defining module is not
under src/.  The extra `node_values` component models, per spec section 3, the
current integer value supplied by a node referenced through a
`PNode`/`PValue`/`PIndex` indirection ("indirections name another node whose
current value supplies T"); the dispatch code resolving such references
(`ivalue.rs`) is not under src/ either. -/
structure ValueCtxt where
  value_store : DefaultValueStore
  cache_store : DefaultCacheStore
  node_values : List (NodeId × Int)
deriving DecidableEq

/-- Embedding of `ValueCtxt::invalidate_cache_by`, which delegates to
`CacheStore::invalidate_by` (spec section 4.3). -/
def ValueCtxt.invalidate_cache_by (cx : ValueCtxt) (nid : NodeId) : ValueCtxt :=
  { cx with cache_store := cx.cache_store.invalidate_by nid }

/-- Rust `ImmOrPNode<IntegerId>` from genapi `elem_type`. -/
inductive ImmOrPNode
  | imm (id : IntegerId)
  | pNode (nid : NodeId)
deriving DecidableEq

/-- Modelled from the spec: `IValue::value` for `ImmOrPNode<IntegerId>`
(`ivalue.rs` is not under src/).  Spec section 3: immediates go through the
`ValueStore`; indirections name another node whose current value supplies the
integer.  A missing slot or node surfaces as `InvalidNode`. -/
def ImmOrPNode.value (self : ImmOrPNode) (cx : ValueCtxt) :
    Except GenApiError Int :=
  match self with
  | .imm id =>
    match cx.value_store.integer_value id with
    | some i => .ok i
    | none => .error .invalidNode
  | .pNode nid =>
    match assocFind nid cx.node_values with
    | some i => .ok i
    | none => .error .invalidNode

/-- Modelled from the spec: `IValue::set_value` for `ImmOrPNode<IntegerId>`
(`ivalue.rs` is not under src/).  Immediates update the `ValueStore`;
indirections update the referenced node's current value.  Failures of the
downstream device write are not modelled (that code is also not under src/),
and per the spec's lifecycle (section 3) writes do not create cache entries. -/
def ImmOrPNode.set_value (self : ImmOrPNode) (v : Int) (cx : ValueCtxt) :
    Except GenApiError Unit × ValueCtxt :=
  match self with
  | .imm id =>
    (.ok (), { cx with value_store := cx.value_store.update id (.integer v) })
  | .pNode nid =>
    (.ok (), { cx with node_values := assocSet nid v cx.node_values })

/-- Rust `EnumEntryNode` (genapi/src/enumeration.rs, lines 178-187).  Only the
fields the claims read are kept (`numeric_value : Option<f64>` is omitted:
floating point is outside this embedding and no claim reads it). -/
structure EnumEntryNode where
  value : Int
  symbolic : String
  is_self_clearing : Bool
deriving DecidableEq

/-- Node variants as far as the claims need them: the enumeration claims only
resolve `EnumEntry` ids; every other `NodeData` arm is collapsed into
`otherNode`. -/
inductive NodeData
  | enumEntry (ent : EnumEntryNode)
  | otherNode
deriving DecidableEq

/-- The node store, embedded as a partial map from ids to stored node data. -/
def NodeStoreFun : Type := NodeId → Option NodeData

/-- Embedding of `NodeId::expect_enum_entry`: the stored data if it is an
`EnumEntry`, `none` otherwise. -/
def expect_enum_entry (store : NodeStoreFun) (nid : NodeId) :
    Option EnumEntryNode :=
  match store nid with
  | some (.enumEntry ent) => some ent
  | _ => none

/-- Rust `EnumerationNode` (genapi/src/enumeration.rs, lines 14-24).  `id` is
`node_base().id()`; attribute/element bases beyond the id are not read by the
claims. -/
structure EnumerationNode where
  id : NodeId
  streamable : Bool
  entries : List NodeId
  value : ImmOrPNode
  p_selected : List NodeId
  polling_time : Option Nat

/-- The entry nodes of an enumeration, resolved through the node store.  The
source iterates `entries` and `unwrap`s `expect_enum_entry` (a panic that
"never fails when parse is succeeded"); under that parse invariant, which the
theorems assume, `filterMap` keeps exactly the same entries in the same
order. -/
def EnumerationNode.entriesResolved (self : EnumerationNode)
    (store : NodeStoreFun) : List EnumEntryNode :=
  self.entries.filterMap (expect_enum_entry store)

/-- Embedding of `EnumerationNode::current_entry` (enumeration.rs, lines
69-90): read the current value, return the first entry id whose resolved entry
carries that value, or `InvalidNode` when none matches. -/
def EnumerationNode.current_entry (self : EnumerationNode)
    (store : NodeStoreFun) (cx : ValueCtxt) : Except GenApiError NodeId :=
  match self.value.value cx with
  | .error e => .error e
  | .ok v =>
    match self.entries.find? (fun nid =>
        match expect_enum_entry store nid with
        | some ent => ent.value = v
        | none => false) with
    | some nid => .ok nid
    | none => .error .invalidNode

/-- Embedding of `EnumerationNode::set_entry_by_value` (enumeration.rs, lines
124-143): reject `InvalidData` when no entry carries `v`; otherwise invalidate
the caches keyed by this node's id and delegate the write to the underlying
value element. -/
def EnumerationNode.set_entry_by_value (self : EnumerationNode) (v : Int)
    (store : NodeStoreFun) (cx : ValueCtxt) :
    Except GenApiError Unit × ValueCtxt :=
  if (self.entriesResolved store).any (fun ent => ent.value = v) then
    self.value.set_value v (cx.invalidate_cache_by self.id)
  else
    (.error .invalidData, cx)

/-- Embedding of `EnumerationNode::set_entry_by_symbolic` (enumeration.rs,
lines 99-122): find the first entry with the given symbolic name (`InvalidData`
when absent) and delegate to `set_entry_by_value` with its value. -/
def EnumerationNode.set_entry_by_symbolic (self : EnumerationNode)
    (name : String) (store : NodeStoreFun) (cx : ValueCtxt) :
    Except GenApiError Unit × ValueCtxt :=
  match (self.entriesResolved store).find? (fun ent => ent.symbolic = name) with
  | some ent => self.set_entry_by_value ent.value store cx
  | none => (.error .invalidData, cx)

/-- Rust `IncrementMode` from genapi `interface`. -/
inductive IncrementMode
  | FixedIncrement
  | ListIncrement
  | NoIncrement
deriving DecidableEq

/-- Rust `IntegerRepresentation` from genapi `elem_type`. -/
inductive IntegerRepresentation
  | Linear
  | Logarithmic
  | Boolean
  | PureNumber
  | HexNumber
  | IpV4Address
  | MacAddress
deriving DecidableEq

/-- Rust `ValueKind<IntegerId>` from genapi `elem_type` (spec section 3):
`Value` is an immediate slot, `PValue` fans writes out to `p_value` and every
`p_value_copies` entry, `PIndex` selects by the evaluated `p_index` key. -/
inductive ValueKind
  | value (id : IntegerId)
  | pValue (p_value : NodeId) (p_value_copies : List NodeId)
  | pIndex (p_index : NodeId) (value_indexed : List (Int × ImmOrPNode))
      (value_default : ImmOrPNode)

/-- Modelled from the spec: `IValue::set_value` for `ValueKind<IntegerId>`
(`ivalue.rs` is not under src/).  `Value` updates the store slot; `PValue`
writes to `p_value` and every copy (spec section 3); `PIndex` evaluates
`p_index` to a key, picks the matching indexed element or the default, and
writes there.  Per the spec's lifecycle (section 3), writes do not create
cache entries. -/
def ValueKind.set_value (self : ValueKind) (v : Int) (cx : ValueCtxt) :
    Except GenApiError Unit × ValueCtxt :=
  match self with
  | .value id =>
    (.ok (), { cx with value_store := cx.value_store.update id (.integer v) })
  | .pValue p_value p_value_copies =>
    let written := p_value_copies.foldl (fun m nid => assocSet nid v m)
      (assocSet p_value v cx.node_values)
    (.ok (), { cx with node_values := written })
  | .pIndex p_index value_indexed value_default =>
    match assocFind p_index cx.node_values with
    | none => (.error .invalidNode, cx)
    | some key =>
      match (value_indexed.find? (fun p => p.1 = key)).map (fun p => p.2) with
      | some target => target.set_value v cx
      | none => value_default.set_value v cx

/-- Rust `IntegerNode` (genapi/src/integer.rs, lines 14-27).  `id` is
`node_base().id()`; `min`/`max` are `ImmOrPNode<IntegerId>` and `inc` is
`ImmOrPNode<i64>`; neither is read by the claims beyond being present. -/
structure IntegerNode where
  id : NodeId
  streamable : Bool
  value_kind : ValueKind
  min : ImmOrPNode
  max : ImmOrPNode
  inc : ImmOrPNode
  unit : Option String
  representation : IntegerRepresentation
  p_selected : List NodeId

/-- Embedding of `IntegerNode::set_value` (integer.rs, lines 92-101):
invalidate the caches registered against this node's id, then delegate the
write to the value kind. -/
def IntegerNode.set_value (self : IntegerNode) (v : Int) (cx : ValueCtxt) :
    Except GenApiError Unit × ValueCtxt :=
  self.value_kind.set_value v (cx.invalidate_cache_by self.id)

/-- Embedding of `IntegerNode::inc_mode` (integer.rs, lines 127-129): the node
store argument is ignored and the result is unconditionally
`Some(FixedIncrement)`. -/
def IntegerNode.inc_mode (_self : IntegerNode) (_store : NodeStoreFun) :
    Option IncrementMode :=
  some .FixedIncrement

/-- Embedding of `IntegerNode::valid_value_set` (integer.rs, lines 143-145):
unconditionally the empty slice. -/
def IntegerNode.valid_value_set (_self : IntegerNode) (_store : NodeStoreFun) :
    List Int :=
  []

/-- The value element is backed by a valid slot: the build invariant that every
`Imm` id was produced by `ValueStore::store` (spec section 4.1), under which
the silent out-of-bounds no-op of `update` cannot occur. -/
def ImmOrPNode.writable_slot (self : ImmOrPNode) (cx : ValueCtxt) : Prop :=
  match self with
  | .imm id => id < cx.value_store.values.length
  | .pNode _ => True

/-- Concrete enumeration store for the C6 witness: node 2 is entry `A` with
value 3, node 4 is entry `B` with value 7. -/
def enumStoreW : NodeStoreFun := fun nid =>
  if nid = 2 then some (.enumEntry ⟨3, "A", false⟩)
  else if nid = 4 then some (.enumEntry ⟨7, "B", false⟩)
  else none

/-- Concrete enumeration node for the C6 witness. -/
def enumNodeW : EnumerationNode := ⟨1, false, [2, 4], .imm 0, [], none⟩

/-- Concrete context for the C6 witness: one integer slot holding 3. -/
def enumCtxtW : ValueCtxt := ⟨⟨[.integer 3]⟩, ⟨[], []⟩, []⟩

/-! ## Memory event handler (cameleon-device u3v emulator) -/

/-- Modelled from the spec: the register map the handler reads and writes
(ABRM `TimestampLatch`/`Timestamp`, SIRM `Control` and the leader/trailer/
payload size registers, spec sections 4.6 and 6); the `Memory` implementation
is not under src/.  Register reads always succeed on this total record (the
Rust fallible read maps a failure to `GenericError`; no claim exercises that
path).  SIRM size registers are `u32` and `Timestamp` is `u64` on the device;
values are embedded as `Nat` and the handler's `u64` arithmetic on `u32`
register values is exact, so no wrap points arise in the embedded code. -/
structure Memory where
  timestampLatch : Nat
  timestamp : Nat
  siControl : Nat
  maximumLeaderSize : Nat
  payloadTransferSize : Nat
  payloadTransferCount : Nat
  payloadFinalTransferSize1 : Nat
  payloadFinalTransferSize2 : Nat
  maximumTrailerSize : Nat
  requiredLeaderSize : Nat
  requiredTrailerSize : Nat
  requiredPayloadSize : Nat
deriving DecidableEq

/-- Modelled from the spec: `cmd::ScdKind`, the command category tag threaded
into every acknowledgement (`control_protocol` is not under src/). -/
inductive ScdKind
  | readMem
  | writeMem
deriving DecidableEq

/-- The acknowledgement statuses the handler produces: `GenCpStatus::GenericError`
and `UsbSpecificStatus::InvalidSiState`. -/
inductive AckStatus
  | genericError
  | invalidSiState
deriving DecidableEq

/-- Modelled from the spec: `ack::ErrorAck` carrying a status and the command
category (`control_protocol` is not under src/). -/
structure ErrorAck where
  status : AckStatus
  scd_kind : ScdKind
deriving DecidableEq

/-- The signals the handler emits: `EventSignal::UpdateTimestamp(ns)`,
`StreamSignal::Enable` and `StreamSignal::Disable(completion)` (the completion
channel of `Disable` is a concurrency artefact outside the embedding). -/
inductive Signal
  | updateTimestamp (ns : Nat)
  | streamEnable
  | streamDisable
deriving DecidableEq

/-- Modelled from the spec: the control-module `Worker` owning the memory, the
device timestamp source (`timestamp.as_nanos()`) and the signal channel
(`control_module` is not under src/).  `try_send_signal` is modelled as
appending to the signal list in emission order. -/
structure Worker where
  memory : Memory
  timestampNs : Nat
  signals : List Signal
deriving DecidableEq

/-- Modelled from the spec: `Worker::try_send_signal` forwards one signal to
the stream/event module (drop-on-full of the bounded channel is not modelled;
the claims count emissions, not deliveries). -/
def Worker.try_send_signal (w : Worker) (s : Signal) : Worker :=
  { w with signals := w.signals ++ [s] }

/-- Modelled from the spec: `SIRM_ALIGNMENT` is defined in the emulator memory
module, which is not under src/; spec section 8 scenario 3 fixes the alignment
at 4.  No theorem below depends on the concrete value. -/
def SIRM_ALIGNMENT : Nat := 4

/-- Embedding of `SiControlHandler::verify_alignment` (memory_event_handler.rs,
lines 162-183): the five SIRM size registers must each be divisible by the
alignment, otherwise `InvalidSiState`. -/
def SiControlHandler.verify_alignment (worker : Worker) (scd_kind : ScdKind) :
    Except ErrorAck Unit :=
  if worker.memory.maximumLeaderSize % SIRM_ALIGNMENT ≠ 0
      ∨ worker.memory.payloadTransferSize % SIRM_ALIGNMENT ≠ 0
      ∨ worker.memory.payloadFinalTransferSize1 % SIRM_ALIGNMENT ≠ 0
      ∨ worker.memory.payloadFinalTransferSize2 % SIRM_ALIGNMENT ≠ 0
      ∨ worker.memory.maximumTrailerSize % SIRM_ALIGNMENT ≠ 0 then
    .error ⟨.invalidSiState, scd_kind⟩
  else
    .ok ()

/-- Embedding of `SiControlHandler::verify_size` (memory_event_handler.rs,
lines 186-224): leader, trailer and total payload capacity must reach their
required sizes, otherwise `InvalidSiState`.  The Rust `u64` product of `u32`
register values cannot wrap, so `Nat` arithmetic is exact. -/
def SiControlHandler.verify_size (worker : Worker) (scd_kind : ScdKind) :
    Except ErrorAck Unit :=
  if worker.memory.maximumLeaderSize < worker.memory.requiredLeaderSize then
    .error ⟨.invalidSiState, scd_kind⟩
  else if worker.memory.maximumTrailerSize < worker.memory.requiredTrailerSize then
    .error ⟨.invalidSiState, scd_kind⟩
  else if worker.memory.payloadTransferSize * worker.memory.payloadTransferCount
      + worker.memory.payloadFinalTransferSize1
      + worker.memory.payloadFinalTransferSize2
      < worker.memory.requiredPayloadSize then
    .error ⟨.invalidSiState, scd_kind⟩
  else
    .ok ()

/-- Embedding of Rust `Result::and` as the handler uses it: keep the first
error, otherwise the second result. -/
def resultAnd : Except ErrorAck Unit → Except ErrorAck Unit →
    Except ErrorAck Unit
  | .error e, _ => .error e
  | .ok _, b => b

/-- Embedding of `SiControlHandler::enable_sirm` (memory_event_handler.rs,
lines 131-151): verify alignment, then sizes, combining with `Result::and`; on
failure write 0 back to `SiControl` and return the error, on success emit
`StreamSignal::Enable`. -/
def SiControlHandler.enable_sirm (worker : Worker) (scd_kind : ScdKind) :
    Except ErrorAck Unit × Worker :=
  match resultAnd (SiControlHandler.verify_alignment worker scd_kind)
      (SiControlHandler.verify_size worker scd_kind) with
  | .error e =>
    (.error e, { worker with memory := { worker.memory with siControl := 0 } })
  | .ok _ =>
    (.ok (), worker.try_send_signal .streamEnable)

/-- Embedding of `SiControlHandler::disable_sirm` (memory_event_handler.rs,
lines 154-159): emit `StreamSignal::Disable`; awaiting the completion channel
is a suspension outside the embedding. -/
def SiControlHandler.disable_sirm (worker : Worker) (_scd_kind : ScdKind) :
    Worker :=
  worker.try_send_signal .streamDisable

/-- Embedding of `SiControlHandler::handle_events` (memory_event_handler.rs,
lines 117-128): read `SiControl`; 1 enables, 0 disables, anything else is
`GenericError`. -/
def SiControlHandler.handle_events (worker : Worker) (scd_kind : ScdKind) :
    Except ErrorAck Unit × Worker :=
  if worker.memory.siControl = 1 then
    SiControlHandler.enable_sirm worker scd_kind
  else if worker.memory.siControl = 0 then
    (.ok (), SiControlHandler.disable_sirm worker scd_kind)
  else
    (.error ⟨.genericError, scd_kind⟩, worker)

/-- Embedding of `TimestampLatchHandler::handle_events`
(memory_event_handler.rs, lines 93-112): any latch value other than 1 is
`GenericError`; on 1 the current device timestamp is written to `Timestamp`
and one `UpdateTimestamp` signal carrying the same value is emitted after the
memory lock is dropped (the lock itself is a concurrency artefact outside the
embedding; the write-then-signal order is kept). -/
def TimestampLatchHandler.handle_events (worker : Worker) (scd_kind : ScdKind) :
    Except ErrorAck Unit × Worker :=
  if worker.memory.timestampLatch ≠ 1 then
    (.error ⟨.genericError, scd_kind⟩, worker)
  else
    (.ok (),
      Worker.try_send_signal
        { worker with memory := { worker.memory with timestamp := worker.timestampNs } }
        (.updateTimestamp worker.timestampNs))

/-- Rust `MemoryEvent` (memory_event_handler.rs, lines 227-230). -/
inductive MemoryEvent
  | timestampLatch
  | siControl
deriving DecidableEq

/-- Embedding of `MemoryEvent::process` (memory_event_handler.rs, lines
233-239). -/
def MemoryEvent.process (ev : MemoryEvent) (worker : Worker)
    (scd_kind : ScdKind) : Except ErrorAck Unit × Worker :=
  match ev with
  | .timestampLatch => TimestampLatchHandler.handle_events worker scd_kind
  | .siControl => SiControlHandler.handle_events worker scd_kind

/-- Embedding of the drain loop of `MemoryEventHandler::handle_events`
(memory_event_handler.rs, lines 30-42): `error_ack` starts `Ok`, every popped
event is processed and `error_ack = error_ack.and(ack)` keeps the first
error.  The channel contents are embedded as the list of events available when
the drain starts. -/
def MemoryEventHandler.handle_events_loop (events : List MemoryEvent)
    (worker : Worker) (scd_kind : ScdKind) (error_ack : Except ErrorAck Unit) :
    Except ErrorAck Unit × Worker :=
  match events with
  | [] => (error_ack, worker)
  | ev :: rest =>
    MemoryEventHandler.handle_events_loop rest (ev.process worker scd_kind).2
      scd_kind (resultAnd error_ack (ev.process worker scd_kind).1)

/-- Embedding of `MemoryEventHandler::handle_events`: run the drain loop with
an `Ok` accumulator. -/
def MemoryEventHandler.handle_events (events : List MemoryEvent)
    (worker : Worker) (scd_kind : ScdKind) : Except ErrorAck Unit × Worker :=
  MemoryEventHandler.handle_events_loop events worker scd_kind (.ok ())

/-- The per-event results of processing the queue in order, each against the
worker state left by the previous events. -/
def eventResults : List MemoryEvent → Worker → ScdKind →
    List (Except ErrorAck Unit)
  | [], _, _ => []
  | ev :: rest, worker, scd_kind =>
    (ev.process worker scd_kind).1 ::
      eventResults rest (ev.process worker scd_kind).2 scd_kind

/-- The worker state after unconditionally executing every event's side
effects in order. -/
def finalWorker : List MemoryEvent → Worker → ScdKind → Worker
  | [], worker, _ => worker
  | ev :: rest, worker, scd_kind =>
    finalWorker rest (ev.process worker scd_kind).2 scd_kind

/-- The earliest error of a result sequence, or `Ok` when all succeeded. -/
def firstError : List (Except ErrorAck Unit) → Except ErrorAck Unit
  | [] => .ok ()
  | .ok _ :: rest => firstError rest
  | .error e :: _ => .error e

/-- The failure condition of the C1 claim: some SIRM size register is
misaligned, or some size check fails. -/
def sirmInvalidCondition (m : Memory) : Prop :=
  (m.maximumLeaderSize % SIRM_ALIGNMENT ≠ 0 ∨
    m.payloadTransferSize % SIRM_ALIGNMENT ≠ 0 ∨
    m.payloadFinalTransferSize1 % SIRM_ALIGNMENT ≠ 0 ∨
    m.payloadFinalTransferSize2 % SIRM_ALIGNMENT ≠ 0 ∨
    m.maximumTrailerSize % SIRM_ALIGNMENT ≠ 0) ∨
  m.maximumLeaderSize < m.requiredLeaderSize ∨
  m.maximumTrailerSize < m.requiredTrailerSize ∨
  m.payloadTransferSize * m.payloadTransferCount +
    m.payloadFinalTransferSize1 + m.payloadFinalTransferSize2 <
    m.requiredPayloadSize

/-! ## Theorems -/

theorem leBytes_length (w n : Nat) : (leBytes w n).length = w := by
  induction w generalizing n with
  | zero => rfl
  | succ k ih => simp [leBytes, ih]

theorem natFromLe_leBytes (w n : Nat) (h : n < 256 ^ w) :
    natFromLe (leBytes w n) = n := by
  induction w generalizing n with
  | zero =>
    simp [leBytes, natFromLe]
    omega
  | succ k ih =>
    have hdiv : n / 256 < 256 ^ k := by
      rw [Nat.div_lt_iff_lt_mul (by norm_num : 0 < 256)]
      calc n < 256 ^ (k + 1) := h
        _ = 256 ^ k * 256 := by rw [pow_succ]
    simp only [leBytes, natFromLe, ih (n / 256) hdiv]
    omega

theorem natFromLe_lt (bs : List Nat) (h : ∀ b ∈ bs, b < 256) :
    natFromLe bs < 256 ^ bs.length := by
  induction bs with
  | nil => simp [natFromLe]
  | cons b rest ih =>
    have hb : b < 256 := h b (by simp)
    have hrest : natFromLe rest < 256 ^ rest.length :=
      ih (fun x hx => h x (by simp [hx]))
    simp only [natFromLe, List.length_cons, pow_succ]
    calc b + 256 * natFromLe rest
        < 256 + 256 * natFromLe rest := by omega
      _ ≤ 256 * 256 ^ rest.length := by nlinarith
      _ = 256 ^ rest.length * 256 := by ring

theorem toSigned_emod (w : Nat) (v : Int) (hw : 0 < w)
    (h1 : -((2 ^ (8 * w - 1) : Nat) : Int) ≤ v)
    (h2 : v < ((2 ^ (8 * w - 1) : Nat) : Int)) :
    toSigned w (v % ((2 ^ (8 * w) : Nat) : Int)).toNat = v := by
  have hsplit : (2 ^ (8 * w) : Nat) = 2 ^ (8 * w - 1) * 2 := by
    rw [← pow_succ]
    congr 1
    omega
  have hP : 0 < (2 ^ (8 * w - 1) : Nat) := Nat.pos_pow_of_pos _ (by norm_num)
  set P : Nat := 2 ^ (8 * w - 1) with hPdef
  have hM : ((2 ^ (8 * w) : Nat) : Int) = 2 * (P : Int) := by
    rw [hsplit]
    push_cast
    ring
  rcases le_or_lt 0 v with hpos | hneg
  · have hvM : v % ((2 ^ (8 * w) : Nat) : Int) = v := by
      apply Int.emod_eq_of_lt hpos
      rw [hM]
      omega
    rw [hvM]
    simp only [toSigned, ← hPdef]
    rw [if_pos (by omega)]
    omega
  · have hvM : v % ((2 ^ (8 * w) : Nat) : Int) = v + 2 * (P : Int) := by
      rw [hM]
      calc v % (2 * (P : Int)) = (v + 2 * (P : Int) * 1) % (2 * (P : Int)) := by
            rw [Int.add_mul_emod_self_left]
        _ = (v + 2 * (P : Int)) % (2 * (P : Int)) := by ring_nf
        _ = v + 2 * (P : Int) := Int.emod_eq_of_lt (by omega) (by omega)
    rw [hvM]
    simp only [toSigned, ← hPdef]
    rw [if_neg (by omega)]
    rw [hM]
    omega

theorem emod_toNat_lt (v : Int) (M : Nat) (hM : 0 < M) :
    (v % (M : Int)).toNat < M := by
  have h1 : 0 ≤ v % (M : Int) := Int.emod_nonneg v (by exact_mod_cast hM.ne')
  have h2 : v % (M : Int) < (M : Int) := Int.emod_lt_of_pos v (by exact_mod_cast hM)
  omega

theorem pow256_eq (w : Nat) : (256 : Nat) ^ w = 2 ^ (8 * w) := by
  rw [pow_mul]
  norm_num

/-- Decoding the little-endian encoding of a signed value recovers it. -/
theorem decode_signed (w : Nat) (hw : 0 < w) (v : Int)
    (h1 : -((2 ^ (8 * w - 1) : Nat) : Int) ≤ v)
    (h2 : v < ((2 ^ (8 * w - 1) : Nat) : Int)) :
    toSigned w (natFromLe (leBytes w (v % ((2 ^ (8 * w) : Nat) : Int)).toNat)) = v := by
  rw [natFromLe_leBytes _ _ (by
    rw [pow256_eq]
    exact emod_toNat_lt v _ (Nat.pos_pow_of_pos _ (by norm_num)))]
  exact toSigned_emod w v hw h1 h2

/-- Decoding the little-endian encoding of an unsigned value recovers it. -/
theorem decode_unsigned (w : Nat) (v : Int)
    (h1 : 0 ≤ v) (h2 : v < ((2 ^ (8 * w) : Nat) : Int)) :
    ((natFromLe (leBytes w (v % ((2 ^ (8 * w) : Nat) : Int)).toNat) : Nat) : Int) = v := by
  rw [natFromLe_leBytes _ _ (by
    rw [pow256_eq]
    exact emod_toNat_lt v _ (Nat.pos_pow_of_pos _ (by norm_num)))]
  rw [Int.emod_eq_of_lt h1 h2]
  omega

theorem bytes_from_int_le (v : Int) (w : Nat) (s : Sign)
    (hw : w = 8 ∨ w = 4 ∨ w = 2 ∨ w = 1) :
    bytes_from_int v w .LE s =
      .ok (leBytes w (v % ((2 ^ (8 * w) : Nat) : Int)).toNat) := by
  unfold bytes_from_int
  rw [if_pos hw]
  cases s <;> rfl

theorem bytes_from_int_be (v : Int) (w : Nat) (s : Sign)
    (hw : w = 8 ∨ w = 4 ∨ w = 2 ∨ w = 1) :
    bytes_from_int v w .BE s =
      .ok (leBytes w (v % ((2 ^ (8 * w) : Nat) : Int)).toNat).reverse := by
  unfold bytes_from_int
  rw [if_pos hw]
  cases s <;> rfl

theorem int_from_slice_of_len8 (bs : List Nat) (e : Endianness) (s : Sign)
    (h : bs.length = 8) :
    int_from_slice bs e s =
      match e with
      | .LE => .ok (toSigned 8 (natFromLe bs))
      | .BE => .ok (toSigned 8 (natFromLe bs.reverse)) := by
  unfold int_from_slice
  rw [h]
  cases e <;> cases s <;> norm_num

theorem int_from_slice_of_len4 (bs : List Nat) (e : Endianness) (s : Sign)
    (h : bs.length = 4) :
    int_from_slice bs e s =
      match e, s with
      | .LE, .Signed => .ok (toSigned 4 (natFromLe bs))
      | .LE, .Unsigned => .ok ((natFromLe bs : Nat) : Int)
      | .BE, .Signed => .ok (toSigned 4 (natFromLe bs.reverse))
      | .BE, .Unsigned => .ok ((natFromLe bs.reverse : Nat) : Int) := by
  unfold int_from_slice
  rw [h]
  cases e <;> cases s <;> norm_num

theorem int_from_slice_of_len2 (bs : List Nat) (e : Endianness) (s : Sign)
    (h : bs.length = 2) :
    int_from_slice bs e s =
      match e, s with
      | .LE, .Signed => .ok (toSigned 2 (natFromLe bs))
      | .LE, .Unsigned => .ok ((natFromLe bs : Nat) : Int)
      | .BE, .Signed => .ok (toSigned 2 (natFromLe bs.reverse))
      | .BE, .Unsigned => .ok ((natFromLe bs.reverse : Nat) : Int) := by
  unfold int_from_slice
  rw [h]
  cases e <;> cases s <;> norm_num

theorem int_from_slice_of_len1 (bs : List Nat) (e : Endianness) (s : Sign)
    (h : bs.length = 1) :
    int_from_slice bs e s =
      match e, s with
      | .LE, .Signed => .ok (toSigned 1 (natFromLe bs))
      | .LE, .Unsigned => .ok ((natFromLe bs : Nat) : Int)
      | .BE, .Signed => .ok (toSigned 1 (natFromLe bs.reverse))
      | .BE, .Unsigned => .ok ((natFromLe bs.reverse : Nat) : Int) := by
  unfold int_from_slice
  rw [h]
  cases e <;> cases s <;> norm_num

theorem length_leBytes_reverse (w n : Nat) : (leBytes w n).reverse.length = w := by
  rw [List.length_reverse, leBytes_length]

/-- C3: for every `i64` value `v`, every width `w ∈ {1,2,4,8}`, every endianness
`e` and sign `s` such that `v` fits in `w` bytes under `s`, decoding the buffer
produced by `bytes_from_int` with `int_from_slice` under the same `e` and `s`
yields `v` back. -/
theorem int_codec_roundtrip (v : Int) (w : Nat) (e : Endianness) (s : Sign)
    (hlo : -(2 ^ 63) ≤ v) (hhi : v < 2 ^ 63)
    (hw : w = 1 ∨ w = 2 ∨ w = 4 ∨ w = 8) (hfit : fitsIn v w s) :
    ∃ bs, bytes_from_int v w e s = .ok bs ∧ int_from_slice bs e s = .ok v := by
  have h63lo : -((2 ^ (8 * 8 - 1) : Nat) : Int) ≤ v := by push_cast; omega
  have h63hi : v < ((2 ^ (8 * 8 - 1) : Nat) : Int) := by push_cast; omega
  rcases hw with rfl | rfl | rfl | rfl <;> cases e <;> cases s <;>
      simp only [fitsIn] at hfit <;>
      [skip; skip; skip; skip; skip; skip; skip; skip; skip; skip; skip; skip;
       skip; skip; skip; skip] <;>
    first
      | (refine ⟨_, bytes_from_int_le v _ _ (by norm_num), ?_⟩
         rw [int_from_slice_of_len1 _ _ _ (leBytes_length 1 _)]
         first
           | exact congrArg Except.ok (decode_signed 1 one_pos v hfit.1 hfit.2)
           | exact congrArg Except.ok (decode_unsigned 1 v hfit.1 hfit.2))
      | (refine ⟨_, bytes_from_int_be v _ _ (by norm_num), ?_⟩
         rw [int_from_slice_of_len1 _ _ _ (length_leBytes_reverse 1 _)]
         rw [show ∀ l : List Nat, l.reverse.reverse = l from
           fun l => List.reverse_reverse l]
         first
           | exact congrArg Except.ok (decode_signed 1 one_pos v hfit.1 hfit.2)
           | exact congrArg Except.ok (decode_unsigned 1 v hfit.1 hfit.2))
      | (refine ⟨_, bytes_from_int_le v _ _ (by norm_num), ?_⟩
         rw [int_from_slice_of_len2 _ _ _ (leBytes_length 2 _)]
         first
           | exact congrArg Except.ok (decode_signed 2 two_pos v hfit.1 hfit.2)
           | exact congrArg Except.ok (decode_unsigned 2 v hfit.1 hfit.2))
      | (refine ⟨_, bytes_from_int_be v _ _ (by norm_num), ?_⟩
         rw [int_from_slice_of_len2 _ _ _ (length_leBytes_reverse 2 _)]
         rw [show ∀ l : List Nat, l.reverse.reverse = l from
           fun l => List.reverse_reverse l]
         first
           | exact congrArg Except.ok (decode_signed 2 two_pos v hfit.1 hfit.2)
           | exact congrArg Except.ok (decode_unsigned 2 v hfit.1 hfit.2))
      | (refine ⟨_, bytes_from_int_le v _ _ (by norm_num), ?_⟩
         rw [int_from_slice_of_len4 _ _ _ (leBytes_length 4 _)]
         first
           | exact congrArg Except.ok (decode_signed 4 four_pos v hfit.1 hfit.2)
           | exact congrArg Except.ok (decode_unsigned 4 v hfit.1 hfit.2))
      | (refine ⟨_, bytes_from_int_be v _ _ (by norm_num), ?_⟩
         rw [int_from_slice_of_len4 _ _ _ (length_leBytes_reverse 4 _)]
         rw [show ∀ l : List Nat, l.reverse.reverse = l from
           fun l => List.reverse_reverse l]
         first
           | exact congrArg Except.ok (decode_signed 4 four_pos v hfit.1 hfit.2)
           | exact congrArg Except.ok (decode_unsigned 4 v hfit.1 hfit.2))
      | (refine ⟨_, bytes_from_int_le v _ _ (by norm_num), ?_⟩
         rw [int_from_slice_of_len8 _ _ _ (leBytes_length 8 _)]
         exact congrArg Except.ok (decode_signed 8 (by norm_num) v h63lo h63hi))
      | (refine ⟨_, bytes_from_int_be v _ _ (by norm_num), ?_⟩
         rw [int_from_slice_of_len8 _ _ _ (length_leBytes_reverse 8 _)]
         rw [show ∀ l : List Nat, l.reverse.reverse = l from
           fun l => List.reverse_reverse l]
         exact congrArg Except.ok (decode_signed 8 (by norm_num) v h63lo h63hi))

theorem toSigned_bounds (w n : Nat) (hw : 0 < w) (h : n < 2 ^ (8 * w)) :
    -((2 ^ (8 * w - 1) : Nat) : Int) ≤ toSigned w n ∧
      toSigned w n < ((2 ^ (8 * w - 1) : Nat) : Int) := by
  have hsplit : (2 ^ (8 * w) : Nat) = 2 ^ (8 * w - 1) * 2 := by
    rw [← pow_succ]
    congr 1
    omega
  unfold toSigned
  split <;> constructor <;> omega

theorem toSigned_emod_self (w n : Nat) :
    toSigned w n % ((2 ^ (8 * w) : Nat) : Int) =
      (n : Int) % ((2 ^ (8 * w) : Nat) : Int) := by
  unfold toSigned
  split
  · rfl
  · exact Int.emod_sub_cancel _ _

theorem int_from_slice_small (bs : List Nat) (e : Endianness) (s : Sign)
    (h : bs.length = 1 ∨ bs.length = 2 ∨ bs.length = 4) :
    int_from_slice bs e s =
      match e, s with
      | .LE, .Signed => .ok (toSigned bs.length (natFromLe bs))
      | .LE, .Unsigned => .ok ((natFromLe bs : Nat) : Int)
      | .BE, .Signed => .ok (toSigned bs.length (natFromLe bs.reverse))
      | .BE, .Unsigned => .ok ((natFromLe bs.reverse : Nat) : Int) := by
  rcases h with h | h | h
  · rw [int_from_slice_of_len1 _ _ _ h, h]
  · rw [int_from_slice_of_len2 _ _ _ h, h]
  · rw [int_from_slice_of_len4 _ _ _ h, h]

/-- C8: `int_from_slice` sign-extends signed values of width below 8 bytes and
zero-extends unsigned values of width below 8 bytes: decoding the single byte
`0xFF` little-endian yields `-1` signed and `255` unsigned, and in general for
widths 1/2/4 the unsigned decode is the nonnegative byte recomposition below
`2 ^ (8·len)` while the signed decode lies in the signed range
`[-2 ^ (8·len - 1), 2 ^ (8·len - 1))` and agrees with the unsigned decode
modulo `2 ^ (8·len)`. -/
theorem int_from_slice_extension :
    (int_from_slice [255] .LE .Signed = .ok (-1) ∧
      int_from_slice [255] .LE .Unsigned = .ok 255) ∧
    ∀ (bs : List Nat) (e : Endianness),
      (bs.length = 1 ∨ bs.length = 2 ∨ bs.length = 4) →
      (∀ b ∈ bs, b < 256) →
      ∃ u v : Int,
        int_from_slice bs e .Unsigned = .ok u ∧
        int_from_slice bs e .Signed = .ok v ∧
        0 ≤ u ∧ u < ((2 ^ (8 * bs.length) : Nat) : Int) ∧
        -((2 ^ (8 * bs.length - 1) : Nat) : Int) ≤ v ∧
        v < ((2 ^ (8 * bs.length - 1) : Nat) : Int) ∧
        v % ((2 ^ (8 * bs.length) : Nat) : Int) =
          u % ((2 ^ (8 * bs.length) : Nat) : Int) := by
  refine ⟨⟨rfl, rfl⟩, ?_⟩
  intro bs e hlen hb
  have hwpos : 0 < bs.length := by rcases hlen with h | h | h <;> omega
  cases e
  case LE =>
    have hnlt : natFromLe bs < 2 ^ (8 * bs.length) := by
      rw [← pow256_eq]
      exact natFromLe_lt bs hb
    refine ⟨(natFromLe bs : Int), toSigned bs.length (natFromLe bs),
      ?_, ?_, ?_, ?_, ?_, ?_, ?_⟩
    · rw [int_from_slice_small bs .LE .Unsigned hlen]
    · rw [int_from_slice_small bs .LE .Signed hlen]
    · positivity
    · exact_mod_cast hnlt
    · exact (toSigned_bounds _ _ hwpos hnlt).1
    · exact (toSigned_bounds _ _ hwpos hnlt).2
    · exact toSigned_emod_self _ _
  case BE =>
    have hnlt : natFromLe bs.reverse < 2 ^ (8 * bs.length) := by
      rw [← pow256_eq, ← List.length_reverse bs]
      exact natFromLe_lt bs.reverse (fun b hbm => hb b (List.mem_reverse.mp hbm))
    refine ⟨(natFromLe bs.reverse : Int), toSigned bs.length (natFromLe bs.reverse),
      ?_, ?_, ?_, ?_, ?_, ?_, ?_⟩
    · rw [int_from_slice_small bs .BE .Unsigned hlen]
    · rw [int_from_slice_small bs .BE .Signed hlen]
    · positivity
    · exact_mod_cast hnlt
    · exact (toSigned_bounds _ _ hwpos hnlt).1
    · exact (toSigned_bounds _ _ hwpos hnlt).2
    · exact toSigned_emod_self _ _

theorem int_from_slice_not_len (bs : List Nat) (e : Endianness) (s : Sign)
    (h1 : bs.length ≠ 1) (h2 : bs.length ≠ 2) (h4 : bs.length ≠ 4)
    (h8 : bs.length ≠ 8) :
    int_from_slice bs e s = .error .invalidBuffer := by
  unfold int_from_slice
  rw [if_neg h8, if_neg h4, if_neg h2, if_neg h1]

theorem int_from_slice_ok_of_len (bs : List Nat) (e : Endianness) (s : Sign)
    (h : bs.length = 1 ∨ bs.length = 2 ∨ bs.length = 4 ∨ bs.length = 8) :
    ∃ x, int_from_slice bs e s = .ok x := by
  rcases h with h | h | h | h
  · rw [int_from_slice_of_len1 _ e s h]
    cases e <;> cases s <;> exact ⟨_, rfl⟩
  · rw [int_from_slice_of_len2 _ e s h]
    cases e <;> cases s <;> exact ⟨_, rfl⟩
  · rw [int_from_slice_of_len4 _ e s h]
    cases e <;> cases s <;> exact ⟨_, rfl⟩
  · rw [int_from_slice_of_len8 _ e s h]
    cases e <;> exact ⟨_, rfl⟩

theorem float_from_slice_not_len (bs : List Nat) (e : Endianness)
    (h4 : bs.length ≠ 4) (h8 : bs.length ≠ 8) :
    float_from_slice bs e = .error .invalidBuffer := by
  unfold float_from_slice
  rw [if_neg h8, if_neg h4]

theorem float_from_slice_ok_of_len (bs : List Nat) (e : Endianness)
    (h : bs.length = 4 ∨ bs.length = 8) :
    ∃ x, float_from_slice bs e = .ok x := by
  rcases h with h | h
  · unfold float_from_slice
    rw [if_neg (by omega), if_pos h]
    cases e <;> exact ⟨_, rfl⟩
  · unfold float_from_slice
    rw [if_pos h]
    cases e <;> exact ⟨_, rfl⟩

/-- C9: `int_from_slice` succeeds exactly on buffer lengths 1/2/4/8 and returns
the `InvalidBuffer` error exactly on the other lengths; `float_from_slice`
succeeds exactly on lengths 4/8 and returns `InvalidBuffer` exactly otherwise.
Both embeddings are total Lean functions, so no input panics. -/
theorem codec_invalid_buffer_iff (bs : List Nat) (e : Endianness) (s : Sign) :
    ((∃ x, int_from_slice bs e s = .ok x) ↔
      (bs.length = 1 ∨ bs.length = 2 ∨ bs.length = 4 ∨ bs.length = 8)) ∧
    (int_from_slice bs e s = .error .invalidBuffer ↔
      ¬(bs.length = 1 ∨ bs.length = 2 ∨ bs.length = 4 ∨ bs.length = 8)) ∧
    ((∃ x, float_from_slice bs e = .ok x) ↔
      (bs.length = 4 ∨ bs.length = 8)) ∧
    (float_from_slice bs e = .error .invalidBuffer ↔
      ¬(bs.length = 4 ∨ bs.length = 8)) := by
  refine ⟨⟨?_, int_from_slice_ok_of_len bs e s⟩, ⟨?_, ?_⟩,
    ⟨?_, float_from_slice_ok_of_len bs e⟩, ⟨?_, ?_⟩⟩
  · rintro ⟨x, hx⟩
    by_contra hlen
    push_neg at hlen
    rw [int_from_slice_not_len bs e s hlen.1 hlen.2.1 hlen.2.2.1 hlen.2.2.2] at hx
    exact absurd hx (by simp)
  · intro herr hlen
    obtain ⟨x, hx⟩ := int_from_slice_ok_of_len bs e s hlen
    rw [herr] at hx
    exact absurd hx (by simp)
  · intro hlen
    push_neg at hlen
    exact int_from_slice_not_len bs e s hlen.1 hlen.2.1 hlen.2.2.1 hlen.2.2.2
  · rintro ⟨x, hx⟩
    by_contra hlen
    push_neg at hlen
    rw [float_from_slice_not_len bs e hlen.1 hlen.2] at hx
    exact absurd hx (by simp)
  · intro herr hlen
    obtain ⟨x, hx⟩ := float_from_slice_ok_of_len bs e hlen
    rw [herr] at hx
    exact absurd hx (by simp)
  · intro hlen
    push_neg at hlen
    exact float_from_slice_not_len bs e hlen.1 hlen.2

theorem assocFind_assocSet_self {α β : Type} [DecidableEq α] (k : α) (v : β)
    (l : List (α × β)) : assocFind k (assocSet k v l) = some v := by
  induction l with
  | nil => simp [assocFind, assocSet]
  | cons p rest ih =>
    by_cases h : p.1 = k
    · simp [assocSet, assocFind, h]
    · simp only [assocSet, h, if_false]
      simpa [assocFind, h] using ih

theorem assocFind_zeroed (targets : List NodeId) (M : NodeId) (hM : M ∈ targets)
    (a l : Int) (st : List (NodeId × List ((Int × Int) × List Nat))) :
    (assocFind M (st.map (fun p =>
        if p.1 ∈ targets then (p.1, ([] : List ((Int × Int) × List Nat)))
        else p))).bind
      (fun level1 => assocFind (a, l) level1) = none := by
  induction st with
  | nil => rfl
  | cons p rest ih =>
    obtain ⟨k, m⟩ := p
    simp only [List.map_cons]
    by_cases hmem : k ∈ targets
    · rw [if_pos hmem]
      by_cases hk : k = M
      · subst hk
        simp [assocFind]
      · simp only [assocFind, if_neg hk]
        exact ih
    · rw [if_neg hmem]
      have hk : k ≠ M := fun h => hmem (h ▸ hM)
      simp only [assocFind, if_neg hk]
      exact ih

theorem get_cache_invalidate_by (cs : DefaultCacheStore) (nid M : NodeId)
    (a l : Int) (hM : M ∈ cs.targetsOf nid) :
    (cs.invalidate_by nid).get_cache M a l = none := by
  unfold DefaultCacheStore.targetsOf at hM
  unfold DefaultCacheStore.invalidate_by
  cases hfind : assocFind nid cs.invalidators with
  | none => rw [hfind] at hM; cases hM
  | some targets =>
    rw [hfind] at hM
    simp only [Option.getD_some] at hM
    exact assocFind_zeroed targets M hM a l cs.store

theorem ImmOrPNode.set_value_preserves_cache (self : ImmOrPNode) (v : Int)
    (cx : ValueCtxt) : ((self.set_value v cx).2).cache_store = cx.cache_store := by
  cases self <;> rfl

theorem ValueKind.set_value_keeps_cache (self : ValueKind) (v : Int) (cx : ValueCtxt) :
    ((self.set_value v cx).2).cache_store = cx.cache_store := by
  cases self with
  | value id => rfl
  | pValue p cs => rfl
  | pIndex p vi d =>
    simp only [ValueKind.set_value]
    cases assocFind p cx.node_values with
    | none => rfl
    | some key =>
      simp only
      cases (vi.find? (fun q => decide (q.1 = key))).map (fun q => q.2) with
      | none => exact ImmOrPNode.set_value_preserves_cache d v cx
      | some target => exact ImmOrPNode.set_value_preserves_cache target v cx

/-- C7: after `IntegerNode::set_value` on node `N`, every node `M` registered
in `invalidators[N]` of the cache store has an empty cache: `get_cache` on `M`
returns `None` at every address and length.  The write delegated to the value
kind goes through the value store or the referenced nodes' values and never
creates a cache entry (spec section 3 lifecycle), so the entries cleared by
`invalidate_cache_by` stay cleared. -/
theorem integer_set_value_invalidates (node : IntegerNode) (v : Int)
    (cx : ValueCtxt) (M : NodeId) (a l : Int)
    (hM : M ∈ cx.cache_store.targetsOf node.id) :
    ((node.set_value v cx).2).cache_store.get_cache M a l = none := by
  unfold IntegerNode.set_value
  rw [ValueKind.set_value_keeps_cache]
  exact get_cache_invalidate_by cx.cache_store node.id M a l hM

/-- Witness for C7 at a concrete store: node 0 invalidates node 5, whose cache
holds one entry before the call. -/
theorem integer_set_value_invalidates_witness :
    (5 : NodeId) ∈ (DefaultCacheStore.mk [(5, [((3, 4), [1, 2])])] [(0, [5])]).targetsOf 0 ∧
    ((IntegerNode.mk 0 false (.value 0) (.imm 0) (.imm 0) (.imm 0) none
        .Linear []).set_value 7
      (ValueCtxt.mk ⟨[.integer 0]⟩
        (DefaultCacheStore.mk [(5, [((3, 4), [1, 2])])] [(0, [5])])
        [])).2.cache_store.get_cache 5 3 4 = none := by
  constructor
  · decide
  · exact integer_set_value_invalidates
      (IntegerNode.mk 0 false (.value 0) (.imm 0) (.imm 0) (.imm 0) none
        .Linear []) 7
      (ValueCtxt.mk ⟨[.integer 0]⟩
        (DefaultCacheStore.mk [(5, [((3, 4), [1, 2])])] [(0, [5])])
        []) 5 3 4 (by decide)

/-- C10: `IntegerNode::inc_mode` returns `Some(FixedIncrement)` and
`IntegerNode::valid_value_set` returns the empty slice for every node and
store, however the node was built; in particular `ListIncrement`,
`NoIncrement` and non-empty valid value sets are never produced. -/
theorem integer_inc_mode_fixed (node : IntegerNode) (store : NodeStoreFun) :
    node.inc_mode store = some .FixedIncrement ∧
      node.valid_value_set store = [] :=
  ⟨rfl, rfl⟩

/-- C5: `EnumerationNode::set_entry_by_value` rejects with `InvalidData` and
touches neither the cache stores nor any value when `v` is not the value of
any entry; when some entry carries `v`, it invalidates the caches registered
against this node's id and delegates the write to the underlying value
element. -/
theorem enumeration_set_entry_by_value_spec (node : EnumerationNode) (v : Int)
    (store : NodeStoreFun) (cx : ValueCtxt) :
    (¬(∃ ent ∈ node.entriesResolved store, ent.value = v) →
      node.set_entry_by_value v store cx = (.error .invalidData, cx)) ∧
    ((∃ ent ∈ node.entriesResolved store, ent.value = v) →
      node.set_entry_by_value v store cx =
        node.value.set_value v (cx.invalidate_cache_by node.id)) := by
  constructor
  · intro h
    unfold EnumerationNode.set_entry_by_value
    rw [if_neg]
    simpa [List.any_eq_true] using h
  · intro h
    unfold EnumerationNode.set_entry_by_value
    rw [if_pos]
    simpa [List.any_eq_true] using h

/-- Witness for C5 (error branch) at a concrete enumeration with one entry of
value 3: writing value 4 is rejected and leaves the context untouched. -/
theorem enumeration_set_entry_by_value_witness :
    (¬(∃ ent ∈ (EnumerationNode.mk 1 false [2] (.imm 0) [] none).entriesResolved
        (fun nid => if nid = 2 then some (.enumEntry ⟨3, "A", false⟩) else none),
        ent.value = 4)) ∧
    (EnumerationNode.mk 1 false [2] (.imm 0) [] none).set_entry_by_value 4
        (fun nid => if nid = 2 then some (.enumEntry ⟨3, "A", false⟩) else none)
        (ValueCtxt.mk ⟨[.integer 3]⟩ (DefaultCacheStore.mk [] []) []) =
      (.error .invalidData,
        ValueCtxt.mk ⟨[.integer 3]⟩ (DefaultCacheStore.mk [] []) []) := by
  constructor
  · decide
  · exact (enumeration_set_entry_by_value_spec
      (EnumerationNode.mk 1 false [2] (.imm 0) [] none) 4
      (fun nid => if nid = 2 then some (.enumEntry ⟨3, "A", false⟩) else none)
      (ValueCtxt.mk ⟨[.integer 3]⟩ (DefaultCacheStore.mk [] []) [])).1 (by decide)

theorem mem_pairwise_ne_eq {α β : Type} (f : α → β) {l : List α}
    (hp : l.Pairwise (fun x y => f x ≠ f y)) {a b : α}
    (ha : a ∈ l) (hb : b ∈ l) (hf : f a = f b) : a = b := by
  induction l with
  | nil => cases ha
  | cons x xs ih =>
    have hhead := (List.pairwise_cons.mp hp).1
    have htail := (List.pairwise_cons.mp hp).2
    rcases List.mem_cons.mp ha with rfl | ha'
    · rcases List.mem_cons.mp hb with rfl | hb'
      · rfl
      · exact absurd hf (hhead b hb')
    · rcases List.mem_cons.mp hb with rfl | hb'
      · exact absurd hf.symm (hhead a ha')
      · exact ih htail ha' hb'

theorem ImmOrPNode.set_value_fst (self : ImmOrPNode) (v : Int) (cx : ValueCtxt) :
    (self.set_value v cx).1 = .ok () := by
  cases self <;> rfl

theorem ImmOrPNode.value_after_set (self : ImmOrPNode) (v : Int)
    (cx : ValueCtxt) (h : self.writable_slot cx) :
    self.value ((self.set_value v cx).2) = .ok v := by
  cases self with
  | imm id =>
    simp only [ImmOrPNode.writable_slot] at h
    simp only [ImmOrPNode.set_value, ImmOrPNode.value,
      DefaultValueStore.integer_value, DefaultValueStore.value_opt,
      DefaultValueStore.update]
    rw [List.getElem?_set_self h]
  | pNode nid =>
    simp only [ImmOrPNode.set_value, ImmOrPNode.value]
    rw [assocFind_assocSet_self]

theorem writable_slot_invalidate (self : ImmOrPNode) (cx : ValueCtxt)
    (nid : NodeId) (h : self.writable_slot cx) :
    self.writable_slot (cx.invalidate_cache_by nid) := by
  cases self <;> exact h

/-- C6: on an enumeration whose resolved entries have pairwise-distinct
symbolic names and pairwise-distinct values, when `name` is the symbolic name
of some entry and the value element is backed by a valid slot, a successful
`set_entry_by_symbolic name` followed by `current_entry` yields an entry id
resolving to an entry whose symbolic name is `name`. -/
theorem enumeration_symbolic_roundtrip (node : EnumerationNode) (name : String)
    (store : NodeStoreFun) (cx : ValueCtxt)
    (_hsym : (node.entriesResolved store).Pairwise
      (fun x y => x.symbolic ≠ y.symbolic))
    (hval : (node.entriesResolved store).Pairwise (fun x y => x.value ≠ y.value))
    (hname : ∃ ent ∈ node.entriesResolved store, ent.symbolic = name)
    (hslot : node.value.writable_slot cx) :
    ∃ cx' nid ent,
      node.set_entry_by_symbolic name store cx = (.ok (), cx') ∧
      node.current_entry store cx' = .ok nid ∧
      expect_enum_entry store nid = some ent ∧
      ent.symbolic = name := by
  cases hfind0 : (node.entriesResolved store).find?
      (fun ent => ent.symbolic = name) with
  | none =>
    obtain ⟨ent, hmem, hn⟩ := hname
    have := List.find?_eq_none.mp hfind0 ent hmem
    simp [hn] at this
  | some ent0 =>
    have hent0name : ent0.symbolic = name := by
      have hq := List.find?_some hfind0
      simp only [decide_eq_true_eq] at hq
      exact hq
    have hent0mem : ent0 ∈ node.entriesResolved store :=
      List.mem_of_find?_eq_some hfind0
    have hslot1 : node.value.writable_slot (cx.invalidate_cache_by node.id) :=
      writable_slot_invalidate node.value cx node.id hslot
    set cx2 := (node.value.set_value ent0.value
      (cx.invalidate_cache_by node.id)).2 with hcx2
    have h1 : node.set_entry_by_symbolic name store cx = (.ok (), cx2) := by
      unfold EnumerationNode.set_entry_by_symbolic
      rw [hfind0]
      show node.set_entry_by_value ent0.value store cx = (.ok (), cx2)
      unfold EnumerationNode.set_entry_by_value
      rw [if_pos (by rw [List.any_eq_true]; exact ⟨ent0, hent0mem, by simp⟩)]
      rw [hcx2, ← ImmOrPNode.set_value_fst node.value ent0.value
        (cx.invalidate_cache_by node.id)]
    have hread : node.value.value cx2 = .ok ent0.value :=
      ImmOrPNode.value_after_set node.value ent0.value
        (cx.invalidate_cache_by node.id) hslot1
    cases hfind1 : node.entries.find? (fun nid =>
        match expect_enum_entry store nid with
        | some ent => ent.value = ent0.value
        | none => false) with
    | none =>
      obtain ⟨nid0, hn0mem, hn0r⟩ := List.mem_filterMap.mp hent0mem
      have := List.find?_eq_none.mp hfind1 nid0 hn0mem
      rw [hn0r] at this
      simp at this
    | some nid1 =>
      have hp1 := List.find?_some hfind1
      cases hexp1 : expect_enum_entry store nid1 with
      | none =>
        rw [hexp1] at hp1
        simp at hp1
      | some ent1 =>
        rw [hexp1] at hp1
        have hv1 : ent1.value = ent0.value := by
          simp only [decide_eq_true_eq] at hp1
          exact hp1
        have hent1mem : ent1 ∈ node.entriesResolved store :=
          List.mem_filterMap.mpr ⟨nid1, List.mem_of_find?_eq_some hfind1, hexp1⟩
        have hent10 : ent1 = ent0 :=
          mem_pairwise_ne_eq (fun e => e.value) hval hent1mem hent0mem hv1
        have h2 : node.current_entry store cx2 = .ok nid1 := by
          unfold EnumerationNode.current_entry
          rw [hread]
          show (match node.entries.find? (fun nid =>
              match expect_enum_entry store nid with
              | some ent => ent.value = ent0.value
              | none => false) with
            | some nid => (.ok nid : Except GenApiError NodeId)
            | none => .error .invalidNode) = .ok nid1
          rw [hfind1]
        exact ⟨cx2, nid1, ent1, h1, h2, hexp1, by rw [hent10, hent0name]⟩

/-- Witness for C6 at the concrete enumeration: every hypothesis holds and the
round trip through entry `B` succeeds. -/
theorem enumeration_symbolic_roundtrip_witness :
    ((enumNodeW.entriesResolved enumStoreW).Pairwise
      (fun x y => x.symbolic ≠ y.symbolic)) ∧
    ((enumNodeW.entriesResolved enumStoreW).Pairwise
      (fun x y => x.value ≠ y.value)) ∧
    (∃ ent ∈ enumNodeW.entriesResolved enumStoreW, ent.symbolic = "B") ∧
    enumNodeW.value.writable_slot enumCtxtW ∧
    ∃ cx' nid ent,
      enumNodeW.set_entry_by_symbolic "B" enumStoreW enumCtxtW = (.ok (), cx') ∧
      enumNodeW.current_entry enumStoreW cx' = .ok nid ∧
      expect_enum_entry enumStoreW nid = some ent ∧
      ent.symbolic = "B" :=
  ⟨by decide, by decide, by decide, by exact Nat.one_pos,
    enumeration_symbolic_roundtrip enumNodeW "B" enumStoreW enumCtxtW
      (by decide) (by decide) (by decide) (by exact Nat.one_pos)⟩

theorem verify_alignment_error (w : Worker) (scd_kind : ScdKind)
    (h : w.memory.maximumLeaderSize % SIRM_ALIGNMENT ≠ 0 ∨
      w.memory.payloadTransferSize % SIRM_ALIGNMENT ≠ 0 ∨
      w.memory.payloadFinalTransferSize1 % SIRM_ALIGNMENT ≠ 0 ∨
      w.memory.payloadFinalTransferSize2 % SIRM_ALIGNMENT ≠ 0 ∨
      w.memory.maximumTrailerSize % SIRM_ALIGNMENT ≠ 0) :
    SiControlHandler.verify_alignment w scd_kind =
      .error ⟨.invalidSiState, scd_kind⟩ := by
  unfold SiControlHandler.verify_alignment
  rw [if_pos h]

theorem verify_alignment_ok (w : Worker) (scd_kind : ScdKind)
    (h : ¬(w.memory.maximumLeaderSize % SIRM_ALIGNMENT ≠ 0 ∨
      w.memory.payloadTransferSize % SIRM_ALIGNMENT ≠ 0 ∨
      w.memory.payloadFinalTransferSize1 % SIRM_ALIGNMENT ≠ 0 ∨
      w.memory.payloadFinalTransferSize2 % SIRM_ALIGNMENT ≠ 0 ∨
      w.memory.maximumTrailerSize % SIRM_ALIGNMENT ≠ 0)) :
    SiControlHandler.verify_alignment w scd_kind = .ok () := by
  unfold SiControlHandler.verify_alignment
  rw [if_neg h]

theorem verify_size_error (w : Worker) (scd_kind : ScdKind)
    (h : w.memory.maximumLeaderSize < w.memory.requiredLeaderSize ∨
      w.memory.maximumTrailerSize < w.memory.requiredTrailerSize ∨
      w.memory.payloadTransferSize * w.memory.payloadTransferCount +
        w.memory.payloadFinalTransferSize1 + w.memory.payloadFinalTransferSize2 <
        w.memory.requiredPayloadSize) :
    SiControlHandler.verify_size w scd_kind =
      .error ⟨.invalidSiState, scd_kind⟩ := by
  unfold SiControlHandler.verify_size
  rcases h with h | h | h
  · rw [if_pos h]
  · by_cases h0 : w.memory.maximumLeaderSize < w.memory.requiredLeaderSize
    · rw [if_pos h0]
    · rw [if_neg h0, if_pos h]
  · by_cases h0 : w.memory.maximumLeaderSize < w.memory.requiredLeaderSize
    · rw [if_pos h0]
    · rw [if_neg h0]
      by_cases h1 : w.memory.maximumTrailerSize < w.memory.requiredTrailerSize
      · rw [if_pos h1]
      · rw [if_neg h1, if_pos h]

theorem verify_size_ok (w : Worker) (scd_kind : ScdKind)
    (h : ¬(w.memory.maximumLeaderSize < w.memory.requiredLeaderSize ∨
      w.memory.maximumTrailerSize < w.memory.requiredTrailerSize ∨
      w.memory.payloadTransferSize * w.memory.payloadTransferCount +
        w.memory.payloadFinalTransferSize1 + w.memory.payloadFinalTransferSize2 <
        w.memory.requiredPayloadSize)) :
    SiControlHandler.verify_size w scd_kind = .ok () := by
  unfold SiControlHandler.verify_size
  rw [if_neg (fun hx => h (Or.inl hx)),
    if_neg (fun hx => h (Or.inr (Or.inl hx))),
    if_neg (fun hx => h (Or.inr (Or.inr hx)))]

/-- C1: with `SiControl` read as 1, whenever any of the five SIRM size
registers is misaligned or any size check fails, the enable handler writes 0
back to `SiControl`, returns the `InvalidSiState` error, and emits no signal
(in particular no `StreamSignal::Enable`); otherwise it succeeds and emits
exactly one `StreamSignal::Enable`. -/
theorem sicontrol_enable_spec (w : Worker) (scd_kind : ScdKind)
    (h1 : w.memory.siControl = 1) :
    (sirmInvalidCondition w.memory →
      SiControlHandler.handle_events w scd_kind =
        (.error ⟨.invalidSiState, scd_kind⟩,
          { w with memory := { w.memory with siControl := 0 } })) ∧
    (¬sirmInvalidCondition w.memory →
      SiControlHandler.handle_events w scd_kind =
        (.ok (), { w with signals := w.signals ++ [.streamEnable] })) := by
  have hstep : SiControlHandler.handle_events w scd_kind =
      SiControlHandler.enable_sirm w scd_kind := by
    unfold SiControlHandler.handle_events
    rw [if_pos h1]
  constructor
  · intro hfail
    rw [hstep]
    unfold SiControlHandler.enable_sirm
    have hres : resultAnd (SiControlHandler.verify_alignment w scd_kind)
        (SiControlHandler.verify_size w scd_kind) =
        .error ⟨.invalidSiState, scd_kind⟩ := by
      rcases hfail with hA | hS
      · rw [verify_alignment_error w scd_kind hA]
        rfl
      · by_cases hA : (w.memory.maximumLeaderSize % SIRM_ALIGNMENT ≠ 0 ∨
          w.memory.payloadTransferSize % SIRM_ALIGNMENT ≠ 0 ∨
          w.memory.payloadFinalTransferSize1 % SIRM_ALIGNMENT ≠ 0 ∨
          w.memory.payloadFinalTransferSize2 % SIRM_ALIGNMENT ≠ 0 ∨
          w.memory.maximumTrailerSize % SIRM_ALIGNMENT ≠ 0)
        · rw [verify_alignment_error w scd_kind hA]
          rfl
        · rw [verify_alignment_ok w scd_kind hA,
            verify_size_error w scd_kind hS]
          rfl
    rw [hres]
  · intro hok
    rw [hstep]
    unfold SiControlHandler.enable_sirm
    have hA : ¬(w.memory.maximumLeaderSize % SIRM_ALIGNMENT ≠ 0 ∨
        w.memory.payloadTransferSize % SIRM_ALIGNMENT ≠ 0 ∨
        w.memory.payloadFinalTransferSize1 % SIRM_ALIGNMENT ≠ 0 ∨
        w.memory.payloadFinalTransferSize2 % SIRM_ALIGNMENT ≠ 0 ∨
        w.memory.maximumTrailerSize % SIRM_ALIGNMENT ≠ 0) :=
      fun hx => hok (Or.inl hx)
    have hS : ¬(w.memory.maximumLeaderSize < w.memory.requiredLeaderSize ∨
        w.memory.maximumTrailerSize < w.memory.requiredTrailerSize ∨
        w.memory.payloadTransferSize * w.memory.payloadTransferCount +
          w.memory.payloadFinalTransferSize1 +
          w.memory.payloadFinalTransferSize2 <
          w.memory.requiredPayloadSize) :=
      fun hx => hok (Or.inr hx)
    rw [verify_alignment_ok w scd_kind hA, verify_size_ok w scd_kind hS]
    rfl

/-- Witness for C1: a concrete worker with `SiControl = 1` and a misaligned
`PayloadTransferSize` is rejected with `InvalidSiState`, `SiControl` is reset
to 0 and no signal is emitted. -/
theorem sicontrol_enable_witness :
    ((Worker.mk (Memory.mk 0 0 1 1024 4097 10 0 0 1024 64 64 40960) 0 []).memory.siControl = 1) ∧
    sirmInvalidCondition
      (Worker.mk (Memory.mk 0 0 1 1024 4097 10 0 0 1024 64 64 40960) 0 []).memory ∧
    SiControlHandler.handle_events
        (Worker.mk (Memory.mk 0 0 1 1024 4097 10 0 0 1024 64 64 40960) 0 []) .writeMem =
      (.error ⟨.invalidSiState, .writeMem⟩,
        Worker.mk (Memory.mk 0 0 0 1024 4097 10 0 0 1024 64 64 40960) 0 []) :=
  ⟨rfl, by unfold sirmInvalidCondition SIRM_ALIGNMENT; decide,
    (sicontrol_enable_spec
      (Worker.mk (Memory.mk 0 0 1 1024 4097 10 0 0 1024 64 64 40960) 0 [])
      .writeMem rfl).1 (by unfold sirmInvalidCondition SIRM_ALIGNMENT; decide)⟩

/-- C4: a `TimestampLatch` read other than 1 yields a `GenericError`
acknowledgement with no signal and no register write; a read of exactly 1
writes the device timestamp to the `Timestamp` register and then emits one
`UpdateTimestamp` signal carrying the same nanosecond value. -/
theorem timestamp_latch_spec (w : Worker) (scd_kind : ScdKind) :
    (w.memory.timestampLatch ≠ 1 →
      TimestampLatchHandler.handle_events w scd_kind =
        (.error ⟨.genericError, scd_kind⟩, w)) ∧
    (w.memory.timestampLatch = 1 →
      TimestampLatchHandler.handle_events w scd_kind =
        (.ok (),
          { w with
              memory := { w.memory with timestamp := w.timestampNs },
              signals := w.signals ++ [.updateTimestamp w.timestampNs] })) := by
  constructor
  · intro h
    unfold TimestampLatchHandler.handle_events
    rw [if_pos h]
  · intro h
    unfold TimestampLatchHandler.handle_events
    rw [if_neg (not_not_intro h)]
    rfl

/-- Witness for C4: writing 2 to the latch of a concrete worker returns
`GenericError` and changes nothing; the success branch on latch 1 writes
timestamp 123000 and emits `UpdateTimestamp 123000`. -/
theorem timestamp_latch_witness :
    ((Worker.mk (Memory.mk 2 0 0 0 0 0 0 0 0 0 0 0) 123000 []).memory.timestampLatch ≠ 1) ∧
    TimestampLatchHandler.handle_events
        (Worker.mk (Memory.mk 2 0 0 0 0 0 0 0 0 0 0 0) 123000 []) .writeMem =
      (.error ⟨.genericError, .writeMem⟩,
        Worker.mk (Memory.mk 2 0 0 0 0 0 0 0 0 0 0 0) 123000 []) ∧
    ((Worker.mk (Memory.mk 1 0 0 0 0 0 0 0 0 0 0 0) 123000 []).memory.timestampLatch = 1) ∧
    TimestampLatchHandler.handle_events
        (Worker.mk (Memory.mk 1 0 0 0 0 0 0 0 0 0 0 0) 123000 []) .writeMem =
      (.ok (),
        Worker.mk (Memory.mk 1 123000 0 0 0 0 0 0 0 0 0 0) 123000
          [.updateTimestamp 123000]) :=
  ⟨by decide,
    (timestamp_latch_spec
      (Worker.mk (Memory.mk 2 0 0 0 0 0 0 0 0 0 0 0) 123000 []) .writeMem).1
      (by decide),
    rfl,
    (timestamp_latch_spec
      (Worker.mk (Memory.mk 1 0 0 0 0 0 0 0 0 0 0 0) 123000 []) .writeMem).2
      rfl⟩

theorem firstError_cons (a : Except ErrorAck Unit)
    (l : List (Except ErrorAck Unit)) :
    firstError (a :: l) = resultAnd a (firstError l) := by
  cases a <;> rfl

theorem resultAnd_assoc (a b c : Except ErrorAck Unit) :
    resultAnd (resultAnd a b) c = resultAnd a (resultAnd b c) := by
  cases a <;> cases b <;> rfl

theorem resultAnd_ok_right (a : Except ErrorAck Unit) :
    resultAnd a (.ok ()) = a := by
  cases a with
  | error e => rfl
  | ok u => cases u; rfl

theorem handle_events_loop_spec (events : List MemoryEvent) (worker : Worker)
    (scd_kind : ScdKind) (acc : Except ErrorAck Unit) :
    MemoryEventHandler.handle_events_loop events worker scd_kind acc =
      (resultAnd acc (firstError (eventResults events worker scd_kind)),
        finalWorker events worker scd_kind) := by
  induction events generalizing worker acc with
  | nil =>
    unfold MemoryEventHandler.handle_events_loop eventResults finalWorker
    rw [show firstError [] = .ok () from rfl, resultAnd_ok_right]
  | cons ev rest ih =>
    unfold MemoryEventHandler.handle_events_loop eventResults finalWorker
    rw [ih, firstError_cons, resultAnd_assoc]

/-- C2: `handle_events` drains the whole queue in enqueue order: the final
worker state reflects every event's side effects executed in order regardless
of earlier failures, and the returned result is the error of the earliest
failing event (or `Ok` if every event succeeded). -/
theorem handle_events_drains (events : List MemoryEvent) (worker : Worker)
    (scd_kind : ScdKind) :
    MemoryEventHandler.handle_events events worker scd_kind =
      (firstError (eventResults events worker scd_kind),
        finalWorker events worker scd_kind) := by
  unfold MemoryEventHandler.handle_events
  rw [handle_events_loop_spec]
  rfl

/-- Witness for C3: the value -2 fits in one signed byte and round-trips
through the codec. -/
theorem int_codec_roundtrip_witness :
    (-(2 ^ 63) ≤ (-2 : Int)) ∧ ((-2 : Int) < 2 ^ 63) ∧
    ((1 : Nat) = 1 ∨ (1 : Nat) = 2 ∨ (1 : Nat) = 4 ∨ (1 : Nat) = 8) ∧
    fitsIn (-2) 1 .Signed ∧
    ∃ bs, bytes_from_int (-2) 1 .LE .Signed = .ok bs ∧
      int_from_slice bs .LE .Signed = .ok (-2) :=
  ⟨by norm_num, by norm_num, by norm_num,
    ⟨by norm_num, by norm_num⟩,
    int_codec_roundtrip (-2) 1 .LE .Signed (by norm_num) (by norm_num)
      (by norm_num) ⟨by norm_num, by norm_num⟩⟩

/-- Witness for C8: the two-byte buffer `[0x00, 0x80]` decodes unsigned to a
nonnegative value below `2 ^ 16` and signed into the `i16` range, agreeing
modulo `2 ^ 16`. -/
theorem int_from_slice_extension_witness :
    (([0, 128] : List Nat).length = 1 ∨ ([0, 128] : List Nat).length = 2 ∨
      ([0, 128] : List Nat).length = 4) ∧
    (∀ b ∈ ([0, 128] : List Nat), b < 256) ∧
    ∃ u v : Int,
      int_from_slice [0, 128] .LE .Unsigned = .ok u ∧
      int_from_slice [0, 128] .LE .Signed = .ok v ∧
      0 ≤ u ∧ u < ((2 ^ (8 * ([0, 128] : List Nat).length) : Nat) : Int) ∧
      -((2 ^ (8 * ([0, 128] : List Nat).length - 1) : Nat) : Int) ≤ v ∧
      v < ((2 ^ (8 * ([0, 128] : List Nat).length - 1) : Nat) : Int) ∧
      v % ((2 ^ (8 * ([0, 128] : List Nat).length) : Nat) : Int) =
        u % ((2 ^ (8 * ([0, 128] : List Nat).length) : Nat) : Int) :=
  ⟨by norm_num, by decide,
    int_from_slice_extension.2 [0, 128] .LE (by norm_num) (by decide)⟩

end Cameleon
